import Mathlib

/-!
Shallow embedding of the invoice computation core of the Invoice-App
repository (src/app/screens/NewInvoice.tsx, src/app/screens/Preview.tsx),
together with theorems settling the specification claims about it.

JavaScript numbers that can only ever hold integers or NaN in this code
are modelled by `JsNum`; integer-valued quantities coming straight from
stored data are modelled as `Int`.  Strings are Lean `String`s, and the
JavaScript string operations used by the source (`trim`, `parseInt`,
regex replacement of a fixed single-character pattern) are modelled
explicitly below.
-/

namespace InvoiceApp

/-- Model of the JavaScript numbers reachable in the quantity field:
either an integer or NaN (NaN is produced by `parseInt` on input with no
parsable digits). -/
inductive JsNum where
  | nan : JsNum
  | int : Int → JsNum
deriving DecidableEq

/-- JavaScript `+` on the numbers modelled by `JsNum`: NaN propagates. -/
def JsNum.add : JsNum → JsNum → JsNum
  | .int a, .int b => .int (a + b)
  | _, _ => .nan

/-- JavaScript `*` on the numbers modelled by `JsNum`: NaN propagates. -/
def JsNum.mul : JsNum → JsNum → JsNum
  | .int a, .int b => .int (a * b)
  | _, _ => .nan

/-- JavaScript `n < 0`: comparisons against NaN are false. -/
def JsNum.ltZero : JsNum → Bool
  | .nan => false
  | .int v => decide (v < 0)

/-- Value of a decimal digit character. -/
def digitsToNat (ds : List Char) : Nat :=
  ds.foldl (fun n c => 10 * n + (c.toNat - 48)) 0

/-- Hexadecimal digit test, as accepted by JavaScript `parseInt` after a
`0x` prefix. -/
def isHexDigit (c : Char) : Bool :=
  c.isDigit || ('a' ≤ c && c ≤ 'f') || ('A' ≤ c && c ≤ 'F')

/-- Value of a hexadecimal digit character. -/
def hexVal (c : Char) : Nat :=
  if c.isDigit then c.toNat - 48
  else if 'a' ≤ c ∧ c ≤ 'f' then c.toNat - 87
  else c.toNat - 55

/-- Accumulate hexadecimal digits into a number. -/
def hexToNat (ds : List Char) : Nat :=
  ds.foldl (fun n c => 16 * n + hexVal c) 0

/-- JavaScript `parseInt` (radix argument omitted) after whitespace and
sign handling: an optional `0x`/`0X` prefix selects hexadecimal,
otherwise the longest leading run of decimal digits is taken; no digits
at all gives NaN. -/
def parseIntNoSign (cs : List Char) : JsNum :=
  match cs with
  | '0' :: 'x' :: rest =>
      let ds := rest.takeWhile isHexDigit
      if ds.isEmpty then .nan else .int (hexToNat ds)
  | '0' :: 'X' :: rest =>
      let ds := rest.takeWhile isHexDigit
      if ds.isEmpty then .nan else .int (hexToNat ds)
  | _ =>
      let ds := cs.takeWhile Char.isDigit
      if ds.isEmpty then .nan else .int (digitsToNat ds)

/-- JavaScript `parseInt(s)`: skip leading whitespace, read an optional
sign, then parse the remaining prefix. -/
def parseIntJS (s : String) : JsNum :=
  let cs := s.data.dropWhile Char.isWhitespace
  match cs with
  | '-' :: rest =>
      match parseIntNoSign rest with
      | .nan => .nan
      | .int v => .int (-v)
  | '+' :: rest => parseIntNoSign rest
  | _ => parseIntNoSign cs

/-- JavaScript `String.prototype.trim`: strip whitespace from both ends
(trailing side first, via the reversed character list). -/
def trimString (s : String) : String :=
  String.mk (((s.data.reverse.dropWhile Char.isWhitespace).reverse).dropWhile Char.isWhitespace)

/-- Service catalog entry (Services.tsx / NewInvoice.tsx). -/
structure Service where
  id : String
  name : String
  ratePaise : Int
deriving DecidableEq

/-- One line of an invoice (app/types/navigation.ts, NewInvoice.tsx). -/
structure InvoiceItem where
  id : String
  serviceId : String
  serviceName : String
  ratePaise : Int
  quantity : JsNum
deriving DecidableEq

/-- A persisted invoice (NewInvoice.tsx / Preview.tsx). -/
structure Invoice where
  id : String
  billNo : String
  date : String
  customerName : String
  items : List InvoiceItem
  totalPaise : JsNum
  createdAt : Int
deriving DecidableEq

/-- Business profile read by the renderer (Preview.tsx). -/
structure BusinessDetails where
  businessName : String
  address : String
  phone : String
  email : String
deriving DecidableEq

/-- The mutable state of the NewInvoice editor screen that the claims
are about. -/
structure EditorState where
  customerName : String
  billNo : String
  date : String
  items : List InvoiceItem
deriving DecidableEq

/-- Line amount of one invoice item: `item.ratePaise * item.quantity`
(NewInvoice.tsx line 139, Preview.tsx lines 428 and 842). -/
def lineAmount (it : InvoiceItem) : JsNum :=
  JsNum.mul (JsNum.int it.ratePaise) it.quantity

/-- Mathematical sum of the line amounts of a list of items. -/
def sumLineAmounts (items : List InvoiceItem) : JsNum :=
  items.foldr (fun it s => JsNum.add (lineAmount it) s) (JsNum.int 0)

/-- `calculateTotal` from NewInvoice.tsx lines 138-140:
`items.reduce((sum, item) => sum + item.ratePaise * item.quantity, 0)`. -/
def calculateTotal (items : List InvoiceItem) : JsNum :=
  items.foldl (fun sum it => JsNum.add sum (lineAmount it)) (JsNum.int 0)

/-- `addService` from NewInvoice.tsx lines 116-126.  The freshly
generated id (`String(Date.now())` in the source) is supplied by the
environment as `newId`. -/
def addService (items : List InvoiceItem) (service : Service) (newId : String) : List InvoiceItem :=
  items ++ [{ id := newId
              serviceId := service.id
              serviceName := service.name
              ratePaise := service.ratePaise
              quantity := JsNum.int 1 }]

/-- The parsed quantity in `updateQuantity`: `parseInt(qty || "0")`,
where `qty || "0"` substitutes `"0"` exactly for the empty (falsy)
string. -/
def parseQty (qty : String) : JsNum :=
  parseIntJS (if qty = "" then "0" else qty)

/-- `updateQuantity` from NewInvoice.tsx lines 128-132. -/
def updateQuantity (items : List InvoiceItem) (id : String) (qty : String) : List InvoiceItem :=
  let num := parseQty qty
  if num.ltZero then items
  else items.map (fun item => if item.id = id then { item with quantity := num } else item)

/-- `removeItem` from NewInvoice.tsx lines 134-136. -/
def removeItem (items : List InvoiceItem) (id : String) : List InvoiceItem :=
  items.filter (fun item => item.id ≠ id)

/-- One user-level editing operation on the item list; `add` and
`update` carry the data the environment supplies (the generated item id
and the text typed into the quantity field). -/
inductive EditorOp where
  | add (service : Service) (newId : String)
  | update (id : String) (qty : String)
  | remove (id : String)

/-- Apply one editing operation to the item list. -/
def applyOp (items : List InvoiceItem) : EditorOp → List InvoiceItem
  | .add service newId => addService items service newId
  | .update id qty => updateQuantity items id qty
  | .remove id => removeItem items id

/-- Item list reached from the initially empty editor by a sequence of
operations. -/
def runOps (ops : List EditorOp) : List InvoiceItem :=
  ops.foldl applyOp []

/-- Validation errors of `handlePreview` (NewInvoice.tsx lines 142-150). -/
inductive SaveError where
  | MissingCustomerName : SaveError
  | NoLineItems : SaveError
deriving DecidableEq

/-- The invoice built by `handlePreview` once validation passes
(NewInvoice.tsx lines 152-160); the generated id and the clock value are
supplied by the environment. -/
def finalizeInvoice (st : EditorState) (newId : String) (now : Int) : Invoice :=
  { id := newId
    billNo := st.billNo
    date := st.date
    customerName := trimString st.customerName
    items := st.items
    totalPaise := calculateTotal st.items
    createdAt := now }

/-- `handlePreview` from NewInvoice.tsx lines 142-176 together with
`saveInvoice` (lines 70-79): returns the invoice store after the action
and the validation error, if any.  On a validation failure the function
returns before `saveInvoice` runs, so the store is unchanged. -/
def handlePreview (st : EditorState) (store : List Invoice) (newId : String) (now : Int) :
    List Invoice × Option SaveError :=
  if trimString st.customerName = "" then (store, some SaveError.MissingCustomerName)
  else if st.items.length = 0 then (store, some SaveError.NoLineItems)
  else (store ++ [finalizeInvoice st newId now], none)

/-- `deleteInvoice` from Preview.tsx lines 382-407 (and lines 809-837 of
the second variant): the collection written back to storage is
`invoices.filter(inv => inv.id !== id)`. -/
def deleteInvoice (invoices : List Invoice) (id : String) : List Invoice :=
  invoices.filter (fun inv => inv.id ≠ id)

/-- The `ones` table of `numberToWords` (Preview.tsx line 89). -/
def onesWords : List String :=
  ["", "One", "Two", "Three", "Four", "Five", "Six", "Seven", "Eight", "Nine"]

/-- The `teens` table of `numberToWords` (Preview.tsx line 90). -/
def teensWords : List String :=
  ["Ten", "Eleven", "Twelve", "Thirteen", "Fourteen", "Fifteen", "Sixteen",
   "Seventeen", "Eighteen", "Nineteen"]

/-- The `tens` table of `numberToWords` (Preview.tsx line 91). -/
def tensWords : List String :=
  ["", "", "Twenty", "Thirty", "Forty", "Fifty", "Sixty", "Seventy", "Eighty", "Ninety"]

/-- The branches of `convertLessThanThousand` (Preview.tsx lines 93-99)
for arguments below one hundred.  The source function recurses only on
`n % 100 < 100`, so its recursive call always lands in these branches;
splitting them out makes the embedding structurally recursive and hence
computable by the kernel. -/
def convertUnderHundred (n : Nat) : String :=
  if n = 0 then ""
  else if n < 10 then onesWords.getD n ""
  else if n < 20 then teensWords.getD (n - 10) ""
  else
    tensWords.getD (n / 10) "" ++ (if n % 10 ≠ 0 then " " ++ onesWords.getD (n % 10) "" else "")

/-- `convertLessThanThousand` from Preview.tsx lines 93-99, with its
single level of recursion (on `n % 100 < 100`) unrolled into
`convertUnderHundred`. -/
def convertLessThanThousand (n : Nat) : String :=
  if n < 100 then convertUnderHundred n
  else
    onesWords.getD (n / 100) "" ++ " Hundred" ++
      (if n % 100 ≠ 0 then " " ++ convertUnderHundred (n % 100) else "")

/-- `numberToWords` from Preview.tsx lines 86-116.  The source's local
consts `crores = num / 10000000`, `lakhs = (num % 10000000) / 100000`,
`thousands = (num % 100000) / 1000` and `remainder = num % 1000` are
written inline, and the four conditional `result += ...` appends appear
as one left-nested concatenation starting from the empty string. -/
def numberToWords (num : Nat) : String :=
  if num = 0 then "Zero"
  else if num < 1000 then convertLessThanThousand num
  else
    trimString
      ("" ++ (if num / 10000000 > 0 then convertLessThanThousand (num / 10000000) ++ " Crore " else "")
          ++ (if (num % 10000000) / 100000 > 0 then
                convertLessThanThousand ((num % 10000000) / 100000) ++ " Lakh " else "")
          ++ (if (num % 100000) / 1000 > 0 then
                convertLessThanThousand ((num % 100000) / 1000) ++ " Thousand " else "")
          ++ (if num % 1000 > 0 then convertLessThanThousand (num % 1000) else ""))

/-- The list of non-zero groups, in descending order of magnitude, each
followed by its unit word, exactly as the spec describes the
composition step of the converter (spec section 4.2, steps 2 and 4). -/
def specGroups (num : Nat) : List String :=
  (if num / 10000000 > 0 then [convertLessThanThousand (num / 10000000) ++ " Crore"] else []) ++
  (if (num % 10000000) / 100000 > 0 then
     [convertLessThanThousand ((num % 10000000) / 100000) ++ " Lakh"] else []) ++
  (if (num % 100000) / 1000 > 0 then
     [convertLessThanThousand ((num % 100000) / 1000) ++ " Thousand"] else []) ++
  (if num % 1000 > 0 then [convertLessThanThousand (num % 1000)] else [])

/-- Concatenation of a list of word groups separated by single spaces. -/
def joinWithSpace : List String → String
  | [] => ""
  | [p] => p
  | p :: q :: rest => p ++ " " ++ joinWithSpace (q :: rest)

/-- Modelled from the spec's words (section 4.2, steps 2 and 4): the
number in words is the concatenation of the non-zero groups, each
followed by its unit word, zero groups omitted entirely, and the whole
string trimmed of surrounding whitespace. -/
def numberToWordsSpec (num : Nat) : String :=
  trimString (joinWithSpace (specGroups num))

/-- The string a group contributes to the code's accumulator: present
groups carry their trailing space (as in `result += ... + " Crore "`),
absent groups contribute nothing. -/
def optSeg : Option String → String
  | some p => p ++ " "
  | none => ""

/-- The string the final (remainder) group contributes to the code's
accumulator: no trailing space. -/
def optPart : Option String → String
  | some p => p
  | none => ""

/-- A present group as a one-element list, an absent group as the empty
list. -/
def optList : Option String → List String
  | some p => [p]
  | none => []

theorem string_data_inj {s t : String} (h : s.data = t.data) : s = t :=
  congrArg String.mk h

theorem data_append (s t : String) : (s ++ t).data = s.data ++ t.data := by
  cases s
  cases t
  rfl

theorem string_append_assoc (x y z : String) : x ++ y ++ z = x ++ (y ++ z) := by
  apply string_data_inj
  simp [data_append]

theorem string_append_empty (s : String) : s ++ "" = s := by
  apply string_data_inj
  simp [data_append]

theorem string_empty_append (s : String) : "" ++ s = s := by
  apply string_data_inj
  simp [data_append]

theorem trim_append_space (s : String) : trimString (s ++ " ") = trimString s := by
  have h : (s ++ " ").data = s.data ++ [' '] := by
    cases s
    rfl
  unfold trimString
  rw [h, List.reverse_append]
  rfl

/-- Bridging lemma for the converter's composition step: accumulating
present groups with trailing spaces and trimming (the code's shape)
produces the same string as joining the present groups with single
spaces and trimming (the spec's shape). -/
theorem join_bridge (p1 p2 p3 p4 : Option String) :
    trimString ("" ++ optSeg p1 ++ optSeg p2 ++ optSeg p3 ++ optPart p4) =
      trimString (joinWithSpace (optList p1 ++ optList p2 ++ optList p3 ++ optList p4)) := by
  rcases p1 with _ | a <;> rcases p2 with _ | b <;> rcases p3 with _ | c <;> rcases p4 with _ | d <;>
    simp [optSeg, optPart, optList, joinWithSpace, ← string_append_assoc,
      string_append_empty, string_empty_append, trim_append_space]

set_option maxRecDepth 40000 in
theorem trim_convertLessThanThousand :
    ∀ n, n < 1000 → trimString (convertLessThanThousand n) = convertLessThanThousand n := by
  decide

theorem crore_lit : (" Crore " : String) = " Crore" ++ " " := by decide

theorem lakh_lit : (" Lakh " : String) = " Lakh" ++ " " := by decide

theorem thousand_lit : (" Thousand " : String) = " Thousand" ++ " " := by decide

theorem numberToWords_spec_pos (num : Nat) (h : 0 < num) :
    numberToWords num = numberToWordsSpec num := by
  by_cases hsmall : num < 1000
  · have hc : num / 10000000 = 0 := by omega
    have hl : (num % 10000000) / 100000 = 0 := by omega
    have ht : (num % 100000) / 1000 = 0 := by omega
    have hr : num % 1000 = num := by omega
    unfold numberToWords numberToWordsSpec specGroups
    rw [if_neg (by omega), if_pos hsmall]
    simp [hc, hl, ht, hr, h, joinWithSpace, trim_convertLessThanThousand num hsmall]
  · unfold numberToWords numberToWordsSpec specGroups
    rw [if_neg (by omega), if_neg hsmall]
    have e1 : (if num / 10000000 > 0 then convertLessThanThousand (num / 10000000) ++ " Crore " else "") =
        optSeg (if num / 10000000 > 0 then some (convertLessThanThousand (num / 10000000) ++ " Crore") else none) := by
      by_cases hc : num / 10000000 > 0 <;> simp [optSeg, hc, crore_lit, string_append_assoc]
    have e2 : (if (num % 10000000) / 100000 > 0 then convertLessThanThousand ((num % 10000000) / 100000) ++ " Lakh " else "") =
        optSeg (if (num % 10000000) / 100000 > 0 then some (convertLessThanThousand ((num % 10000000) / 100000) ++ " Lakh") else none) := by
      by_cases hc : (num % 10000000) / 100000 > 0 <;> simp [optSeg, hc, lakh_lit, string_append_assoc]
    have e3 : (if (num % 100000) / 1000 > 0 then convertLessThanThousand ((num % 100000) / 1000) ++ " Thousand " else "") =
        optSeg (if (num % 100000) / 1000 > 0 then some (convertLessThanThousand ((num % 100000) / 1000) ++ " Thousand") else none) := by
      by_cases hc : (num % 100000) / 1000 > 0 <;> simp [optSeg, hc, thousand_lit, string_append_assoc]
    have e4 : (if num % 1000 > 0 then convertLessThanThousand (num % 1000) else "") =
        optPart (if num % 1000 > 0 then some (convertLessThanThousand (num % 1000)) else none) := by
      by_cases hc : num % 1000 > 0 <;> simp [optPart, hc]
    have e1l : (if num / 10000000 > 0 then [convertLessThanThousand (num / 10000000) ++ " Crore"] else []) =
        optList (if num / 10000000 > 0 then some (convertLessThanThousand (num / 10000000) ++ " Crore") else none) := by
      by_cases hc : num / 10000000 > 0 <;> simp [optList, hc]
    have e2l : (if (num % 10000000) / 100000 > 0 then [convertLessThanThousand ((num % 10000000) / 100000) ++ " Lakh"] else []) =
        optList (if (num % 10000000) / 100000 > 0 then some (convertLessThanThousand ((num % 10000000) / 100000) ++ " Lakh") else none) := by
      by_cases hc : (num % 10000000) / 100000 > 0 <;> simp [optList, hc]
    have e3l : (if (num % 100000) / 1000 > 0 then [convertLessThanThousand ((num % 100000) / 1000) ++ " Thousand"] else []) =
        optList (if (num % 100000) / 1000 > 0 then some (convertLessThanThousand ((num % 100000) / 1000) ++ " Thousand") else none) := by
      by_cases hc : (num % 100000) / 1000 > 0 <;> simp [optList, hc]
    have e4l : (if num % 1000 > 0 then [convertLessThanThousand (num % 1000)] else []) =
        optList (if num % 1000 > 0 then some (convertLessThanThousand (num % 1000)) else none) := by
      by_cases hc : num % 1000 > 0 <;> simp [optList, hc]
    rw [e1, e2, e3, e4, e1l, e2l, e3l, e4l]
    exact join_bridge _ _ _ _

/-- C2 counterexample: at amount 0 the converter returns the explicit
fallback word "Zero", not the (empty, trimmed) concatenation of its
non-zero groups that the claim prescribes for every non-negative
amount. -/
theorem claim2_counterexample :
    numberToWords 0 = "Zero" ∧ numberToWordsSpec 0 = "" ∧
      numberToWords 0 ≠ numberToWordsSpec 0 := by
  decide

/-- C2 (amended): for every positive integer rupee amount the converter
returns the concatenation of the non-zero crore/lakh/thousand/remainder
groups, each followed by its unit word, zero groups omitted, trimmed of
surrounding whitespace; and numberToWords 1234567 is the sample phrase
from the claim.  (At amount 0 the converter instead returns "Zero".) -/
theorem claim2_decomposition :
    (∀ num : Nat, 0 < num → numberToWords num = numberToWordsSpec num) ∧
    numberToWords 1234567 = "Twelve Lakh Thirty Four Thousand Five Hundred Sixty Seven" :=
  ⟨fun num h => numberToWords_spec_pos num h, by decide⟩

/-- Witness for C2's theorem at the concrete amount 1234567. -/
theorem claim2_witness :
    numberToWords 1234567 = numberToWordsSpec 1234567 ∧
    numberToWords 1234567 = "Twelve Lakh Thirty Four Thousand Five Hundred Sixty Seven" :=
  ⟨claim2_decomposition.1 1234567 (by decide), claim2_decomposition.2⟩

/-- Integer nearest to a rational, ties to the even integer: the IEEE
754 default rounding applied to a scaled significand. -/
def roundNearestEven (x : ℚ) : ℤ :=
  if Int.fract x < 1 / 2 then ⌊x⌋
  else if 1 / 2 < Int.fract x then ⌊x⌋ + 1
  else if ⌊x⌋ % 2 = 0 then ⌊x⌋ else ⌊x⌋ + 1

/-- The binary64 value nearest to a positive rational: scale by the
power of two that puts the value in `[2^52, 2^53)`, round to nearest
(ties to even), and scale back.  The amounts in this development are
far from the subnormal and overflow ranges, so those are not modelled. -/
def flPos (q : ℚ) : ℚ :=
  ((roundNearestEven (q * 2 ^ ((52 : ℤ) - Int.log 2 q)) : ℤ) : ℚ) * 2 ^ (Int.log 2 q - 52)

/-- Rounding of a rational to the nearest binary64 value (`fl` in the
usual floating-point notation). -/
def fl (q : ℚ) : ℚ :=
  if q = 0 then 0 else if q < 0 then -flPos (-q) else flPos q

/-- IEEE binary64 division: correctly rounded exact quotient. -/
def jsDiv (a b : ℚ) : ℚ := fl (a / b)

/-- IEEE binary64 subtraction: correctly rounded exact difference. -/
def jsSub (a b : ℚ) : ℚ := fl (a - b)

/-- IEEE binary64 multiplication: correctly rounded exact product. -/
def jsMul (a b : ℚ) : ℚ := fl (a * b)

/-- `amountToWords` from Preview.tsx lines 118-128 under IEEE binary64
semantics.  The argument is a double (a rational on the binary64 grid);
`Math.floor` on a double is exact, so it is the floor into ℤ; the
subtraction `amountInRupees - rupees` and the multiplication by 100 are
binary64 operations, modelled by the correctly rounded `jsSub` and
`jsMul`; `Math.round` returns the integer nearest to its argument with
ties toward positive infinity, which is Mathlib's `round`. -/
def amountToWords (amountInRupees : ℚ) : String :=
  (if round (jsMul (jsSub amountInRupees ((⌊amountInRupees⌋ : ℤ) : ℚ)) 100) > 0
    then numberToWords (⌊amountInRupees⌋ : ℤ).toNat ++ " Rupees" ++ " and " ++
           numberToWords (round (jsMul (jsSub amountInRupees ((⌊amountInRupees⌋ : ℤ) : ℚ)) 100)).toNat ++ " Paise"
    else numberToWords (⌊amountInRupees⌋ : ℤ).toNat ++ " Rupees") ++ " Only"

/-- The phrase the spec prescribes for a rupee amount with a paise
remainder (spec section 4.2, step 5): the rupee words and " Rupees"
always, an " and <paise words> Paise" segment exactly when the paise
remainder is positive, and a terminating " Only". -/
def specAmountPhrase (rupees paise : Nat) : String :=
  numberToWords rupees ++ " Rupees" ++
    (if 0 < paise then " and " ++ numberToWords paise ++ " Paise" else "") ++ " Only"

/-- The amount-in-words value placed into the rendered document
(Preview.tsx lines 446-448): `amountToWords(invoice.totalPaise / 100)`,
for a stored invoice whose integer `totalPaise` is `t`; the division by
100 is a binary64 division. -/
def documentAmountWords (t : ℤ) : String :=
  amountToWords (jsDiv (t : ℚ) 100)

theorem fl_of_pos {q : ℚ} (hq : 0 < q) : fl q = flPos q := by
  rw [fl, if_neg hq.ne', if_neg (not_lt.mpr hq.le)]

theorem roundNearestEven_abs_le (x : ℚ) : |((roundNearestEven x : ℤ) : ℚ) - x| ≤ 1 / 2 := by
  have h0 := Int.fract_nonneg x
  have h1 := Int.fract_lt_one x
  have hx := Int.floor_add_fract x
  unfold roundNearestEven
  split_ifs with hlt hgt hev
  · rw [abs_le]
    constructor <;> linarith
  · rw [abs_le]
    push_cast
    constructor <;> linarith
  · rw [abs_le]
    constructor <;> linarith
  · rw [abs_le]
    push_cast
    constructor <;> linarith

theorem roundNearestEven_intCast (n : ℤ) : roundNearestEven ((n : ℚ)) = n := by
  unfold roundNearestEven
  rw [Int.fract_intCast, Int.floor_intCast]
  norm_num

theorem log2_self_le {q : ℚ} (hq : 0 < q) : (2 : ℚ) ^ (Int.log 2 q) ≤ q := by
  have h := Int.zpow_log_le_self (b := 2) (R := ℚ) (by norm_num) hq
  exact_mod_cast h

theorem lt_log2_succ (q : ℚ) : q < (2 : ℚ) ^ (Int.log 2 q + 1) := by
  have h := Int.lt_zpow_succ_log_self (b := 2) (R := ℚ) (by norm_num) q
  exact_mod_cast h

theorem log2_eq_of {q : ℚ} {e : ℤ} (hq : 0 < q)
    (h1 : (2 : ℚ) ^ e ≤ q) (h2 : q < (2 : ℚ) ^ (e + 1)) : Int.log 2 q = e := by
  have hle : e ≤ Int.log 2 q := by
    rw [← Int.zpow_le_iff_le_log (b := 2) (by norm_num) hq]
    exact_mod_cast h1
  have hlt : Int.log 2 q < e + 1 := by
    rw [← Int.lt_zpow_iff_log_lt (b := 2) (by norm_num) hq]
    exact_mod_cast h2
  omega

theorem fl_err {q : ℚ} (hq : 0 < q) : |fl q - q| ≤ (2 : ℚ) ^ (Int.log 2 q - 53) := by
  rw [fl_of_pos hq, flPos]
  have h2ne : (2 : ℚ) ≠ 0 := by norm_num
  have hpos : (0 : ℚ) < 2 ^ (Int.log 2 q - 52) := zpow_pos (by norm_num) _
  have hqe : q * 2 ^ ((52 : ℤ) - Int.log 2 q) * 2 ^ (Int.log 2 q - 52) = q := by
    rw [mul_assoc, ← zpow_add₀ h2ne]
    norm_num
  have hdist : ((roundNearestEven (q * 2 ^ ((52 : ℤ) - Int.log 2 q)) : ℤ) : ℚ) *
        2 ^ (Int.log 2 q - 52) - q =
      (((roundNearestEven (q * 2 ^ ((52 : ℤ) - Int.log 2 q)) : ℤ) : ℚ) -
        q * 2 ^ ((52 : ℤ) - Int.log 2 q)) * 2 ^ (Int.log 2 q - 52) := by
    rw [sub_mul, hqe]
  calc |((roundNearestEven (q * 2 ^ ((52 : ℤ) - Int.log 2 q)) : ℤ) : ℚ) * 2 ^ (Int.log 2 q - 52) - q|
      = |((roundNearestEven (q * 2 ^ ((52 : ℤ) - Int.log 2 q)) : ℤ) : ℚ) -
          q * 2 ^ ((52 : ℤ) - Int.log 2 q)| * 2 ^ (Int.log 2 q - 52) := by
        rw [hdist, abs_mul, abs_of_pos hpos]
    _ ≤ (1 / 2) * 2 ^ (Int.log 2 q - 52) :=
        mul_le_mul_of_nonneg_right (roundNearestEven_abs_le _) hpos.le
    _ = 2 ^ (Int.log 2 q - 53) := by
        rw [show Int.log 2 q - 53 = -1 + (Int.log 2 q - 52) by ring, zpow_add₀ h2ne,
          zpow_neg, zpow_one]
        ring

theorem fl_rep {q : ℚ} (hq : 0 < q) :
    ∃ m : ℤ, fl q = (m : ℚ) * 2 ^ (Int.log 2 q - 52) ∧
      4503599627370496 ≤ m ∧ m ≤ 9007199254740992 := by
  have h2ne : (2 : ℚ) ≠ 0 := by norm_num
  have hspos : (0 : ℚ) < 2 ^ ((52 : ℤ) - Int.log 2 q) := zpow_pos (by norm_num) _
  have hlb : (4503599627370496 : ℚ) ≤ q * 2 ^ ((52 : ℤ) - Int.log 2 q) := by
    calc (4503599627370496 : ℚ)
        = 2 ^ (Int.log 2 q) * 2 ^ ((52 : ℤ) - Int.log 2 q) := by
          rw [← zpow_add₀ h2ne, show Int.log 2 q + ((52 : ℤ) - Int.log 2 q) = (52 : ℤ) by ring]
          norm_num
      _ ≤ q * 2 ^ ((52 : ℤ) - Int.log 2 q) :=
          mul_le_mul_of_nonneg_right (log2_self_le hq) hspos.le
  have hub : q * 2 ^ ((52 : ℤ) - Int.log 2 q) < (9007199254740992 : ℚ) := by
    calc q * 2 ^ ((52 : ℤ) - Int.log 2 q)
        < 2 ^ (Int.log 2 q + 1) * 2 ^ ((52 : ℤ) - Int.log 2 q) :=
          mul_lt_mul_of_pos_right (lt_log2_succ q) hspos
      _ = (9007199254740992 : ℚ) := by
          rw [← zpow_add₀ h2ne, show Int.log 2 q + 1 + ((52 : ℤ) - Int.log 2 q) = (53 : ℤ) by ring]
          norm_num
  have habs := roundNearestEven_abs_le (q * 2 ^ ((52 : ℤ) - Int.log 2 q))
  rw [abs_le] at habs
  refine ⟨roundNearestEven (q * 2 ^ ((52 : ℤ) - Int.log 2 q)), ?_, ?_, ?_⟩
  · rw [fl_of_pos hq, flPos]
  · have h52 : ((4503599627370495 : ℤ) : ℚ) <
        ((roundNearestEven (q * 2 ^ ((52 : ℤ) - Int.log 2 q)) : ℤ) : ℚ) := by
      push_cast
      linarith
    have : (4503599627370495 : ℤ) < roundNearestEven (q * 2 ^ ((52 : ℤ) - Int.log 2 q)) := by
      exact_mod_cast h52
    omega
  · have h53 : ((roundNearestEven (q * 2 ^ ((52 : ℤ) - Int.log 2 q)) : ℤ) : ℚ) <
        ((9007199254740993 : ℤ) : ℚ) := by
      push_cast
      linarith
    have : roundNearestEven (q * 2 ^ ((52 : ℤ) - Int.log 2 q)) < (9007199254740993 : ℤ) := by
      exact_mod_cast h53
    omega

theorem fl_exact {m : ℤ} (d : ℤ) (hm0 : 0 < m) (hm : m ≤ 9007199254740992) :
    fl ((m : ℚ) * 2 ^ d) = (m : ℚ) * 2 ^ d := by
  have h2ne : (2 : ℚ) ≠ 0 := by norm_num
  have hy : (0 : ℚ) < (m : ℚ) * 2 ^ d :=
    mul_pos (by exact_mod_cast hm0) (zpow_pos (by norm_num) d)
  rw [fl_of_pos hy, flPos]
  set L : ℤ := Int.log 2 ((m : ℚ) * 2 ^ d) with hL
  have key : ∃ s : ℤ, (s : ℚ) = (m : ℚ) * 2 ^ d * 2 ^ ((52 : ℤ) - L) := by
    by_cases hcase : L ≤ d + 52
    · refine ⟨m * 2 ^ (d + 52 - L).toNat, ?_⟩
      have hpow : ((2 : ℚ) ^ (d + 52 - L).toNat : ℚ) = (2 : ℚ) ^ (d + 52 - L) := by
        rw [← zpow_natCast]
        congr 1
        omega
      push_cast
      rw [hpow, mul_assoc, ← zpow_add₀ h2ne, show d + ((52 : ℤ) - L) = d + 52 - L by ring]
    · have hup : (m : ℚ) * 2 ^ d ≤ (2 : ℚ) ^ (d + 53) := by
        calc (m : ℚ) * 2 ^ d ≤ (9007199254740992 : ℚ) * 2 ^ d := by
              have hmq : (m : ℚ) ≤ (9007199254740992 : ℚ) := by exact_mod_cast hm
              exact mul_le_mul_of_nonneg_right hmq (zpow_pos (by norm_num) d).le
          _ = (2 : ℚ) ^ (d + 53) := by
              rw [show (9007199254740992 : ℚ) = (2 : ℚ) ^ (53 : ℤ) by norm_num,
                ← zpow_add₀ h2ne, show (53 : ℤ) + d = d + 53 by ring]
      have hdown : (2 : ℚ) ^ (d + 53) ≤ (2 : ℚ) ^ L :=
        zpow_le_zpow_right₀ (by norm_num) (by omega)
      have hself : (2 : ℚ) ^ L ≤ (m : ℚ) * 2 ^ d := log2_self_le hy
      have hval : (m : ℚ) * 2 ^ d = (2 : ℚ) ^ L :=
        le_antisymm (le_trans hup hdown) hself
      refine ⟨4503599627370496, ?_⟩
      rw [hval, ← zpow_add₀ h2ne, show L + ((52 : ℤ) - L) = (52 : ℤ) by ring]
      norm_num
  obtain ⟨s, hs⟩ := key
  rw [← hs, roundNearestEven_intCast, hs, mul_assoc, mul_assoc, ← zpow_add₀ h2ne,
    ← zpow_add₀ h2ne, show (52 : ℤ) - L + (L - 52) = 0 by ring]
  norm_num

theorem fl_eval_lo {q : ℚ} {e n : ℤ} (hq : 0 < q)
    (h1 : (2 : ℚ) ^ e ≤ q) (h2 : q < (2 : ℚ) ^ (e + 1))
    (h3 : (n : ℚ) ≤ q * 2 ^ ((52 : ℤ) - e)) (h4 : q * 2 ^ ((52 : ℤ) - e) < (n : ℚ) + 1 / 2) :
    fl q = (n : ℚ) * 2 ^ (e - 52) := by
  have he := log2_eq_of hq h1 h2
  rw [fl_of_pos hq, flPos, he]
  have hfloor : ⌊q * 2 ^ ((52 : ℤ) - e)⌋ = n := by
    rw [Int.floor_eq_iff]
    exact ⟨h3, by linarith⟩
  have hfr : Int.fract (q * 2 ^ ((52 : ℤ) - e)) < 1 / 2 := by
    rw [Int.fract, hfloor]
    linarith
  rw [roundNearestEven, if_pos hfr, hfloor]

theorem fl_eval_hi {q : ℚ} {e n : ℤ} (hq : 0 < q)
    (h1 : (2 : ℚ) ^ e ≤ q) (h2 : q < (2 : ℚ) ^ (e + 1))
    (h3 : (n : ℚ) + 1 / 2 < q * 2 ^ ((52 : ℤ) - e)) (h4 : q * 2 ^ ((52 : ℤ) - e) < (n : ℚ) + 1) :
    fl q = ((n + 1 : ℤ) : ℚ) * 2 ^ (e - 52) := by
  have he := log2_eq_of hq h1 h2
  rw [fl_of_pos hq, flPos, he]
  have hfloor : ⌊q * 2 ^ ((52 : ℤ) - e)⌋ = n := by
    rw [Int.floor_eq_iff]
    constructor
    · linarith
    · linarith
  have hfr : 1 / 2 < Int.fract (q * 2 ^ ((52 : ℤ) - e)) := by
    rw [Int.fract, hfloor]
    linarith
  rw [roundNearestEven, if_neg (by linarith), if_pos hfr, hfloor]

theorem fl_zero : fl 0 = 0 := by
  rw [fl, if_pos rfl]

/-- The decode performed by the renderer on a stored paise total below
`100 * 2 ^ 46`: dividing by 100 in binary64, flooring, subtracting and
scaling by 100 in binary64, then rounding recovers exactly the integer
quotient and remainder by 100.  (At `100 * 2 ^ 46 + 1` this fails; see
the C5 counterexample.) -/
theorem decode_div100 (t : ℕ) (hb : t < 100 * 2 ^ 46) :
    ⌊jsDiv (t : ℚ) 100⌋ = ((t / 100 : ℕ) : ℤ) ∧
    round (jsMul (jsSub (jsDiv (t : ℚ) 100) ((⌊jsDiv (t : ℚ) 100⌋ : ℤ) : ℚ)) 100)
      = ((t % 100 : ℕ) : ℤ) := by
  have h2ne : (2 : ℚ) ≠ 0 := by norm_num
  rcases Nat.eq_zero_or_pos t with ht0 | htpos
  · subst ht0
    have h0 : jsDiv ((0 : ℕ) : ℚ) 100 = 0 := by
      rw [jsDiv, show (((0 : ℕ) : ℚ) / 100 : ℚ) = 0 by norm_num, fl_zero]
    rw [h0, show ⌊(0 : ℚ)⌋ = 0 from Int.floor_zero,
      show ((0 : ℤ) : ℚ) = 0 by norm_num,
      jsSub, sub_zero, fl_zero, jsMul, zero_mul, fl_zero, round_zero]
    norm_num
  · simp only [jsDiv]
    set k : ℕ := t / 100 with hk
    set p : ℕ := t % 100 with hp
    have hkp : 100 * k + p = t := Nat.div_add_mod t 100
    have hp99 : p < 100 := Nat.mod_lt t (by norm_num)
    have h46 : (2 : ℕ) ^ 46 = 70368744177664 := by norm_num
    set q : ℚ := (t : ℚ) / 100 with hqdef
    have htq : (t : ℚ) = 100 * (k : ℚ) + (p : ℚ) := by exact_mod_cast hkp.symm
    have hq0 : 0 < q := by
      rw [hqdef]
      have : (0 : ℚ) < (t : ℚ) := by exact_mod_cast htpos
      positivity
    have hqk : q = (k : ℚ) + (p : ℚ) / 100 := by
      rw [hqdef, htq]
      ring
    have hq46 : q < (2 : ℚ) ^ (46 : ℤ) := by
      rw [hqdef, div_lt_iff₀ (by norm_num : (0 : ℚ) < 100)]
      calc (t : ℚ) < ((100 * 2 ^ 46 : ℕ) : ℚ) := by exact_mod_cast hb
        _ = (2 : ℚ) ^ (46 : ℤ) * 100 := by push_cast; norm_num
    set e : ℤ := Int.log 2 q with he
    have hlow : (2 : ℚ) ^ e ≤ q := log2_self_le hq0
    have hhigh : q < (2 : ℚ) ^ (e + 1) := lt_log2_succ q
    have he45 : e ≤ 45 := by
      by_contra hcon
      push_neg at hcon
      have h1 : (2 : ℚ) ^ (46 : ℤ) ≤ (2 : ℚ) ^ e := zpow_le_zpow_right₀ (by norm_num) (by omega)
      linarith
    set x : ℚ := fl q with hx
    have herr : -(1 / 256) ≤ x - q ∧ x - q ≤ 1 / 256 := by
      rw [← abs_le]
      calc |x - q| ≤ (2 : ℚ) ^ (e - 53) := fl_err hq0
        _ ≤ (2 : ℚ) ^ (-8 : ℤ) := zpow_le_zpow_right₀ (by norm_num) (by omega)
        _ = 1 / 256 := by norm_num
    by_cases hp0 : p = 0
    · have hkpos : 0 < k := by omega
      have hqint : q = (((k : ℤ)) : ℚ) * 2 ^ (0 : ℤ) := by
        rw [hqk, hp0]
        push_cast
        norm_num
      have hkle : (k : ℤ) ≤ 9007199254740992 := by
        have hklt : k < 2 ^ 46 := by omega
        have : k ≤ 9007199254740992 := by omega
        exact_mod_cast this
      have hxq : x = q := by
        rw [hx, hqint, fl_exact 0 (by exact_mod_cast hkpos) hkle]
      have hfloor : ⌊x⌋ = (k : ℤ) := by
        rw [hxq, hqint, show (((k : ℤ)) : ℚ) * 2 ^ (0 : ℤ) = ((k : ℤ) : ℚ) by norm_num,
          Int.floor_intCast]
      refine ⟨hfloor, ?_⟩
      rw [hfloor, hxq, hqint,
        show (((k : ℤ)) : ℚ) * 2 ^ (0 : ℤ) = ((k : ℤ) : ℚ) by norm_num,
        jsSub, sub_self, fl_zero, jsMul, zero_mul, fl_zero, round_zero, hp0]
      norm_num
    · have hp1 : 1 ≤ p := by omega
      have hp99q : (p : ℚ) ≤ 99 := by exact_mod_cast (by omega : p ≤ 99)
      have hp1q : (1 : ℚ) ≤ (p : ℚ) := by exact_mod_cast hp1
      have hxlb : (k : ℚ) < x := by linarith [herr.1]
      have hxub : x < (k : ℚ) + 1 := by linarith [herr.2]
      have hfloor : ⌊x⌋ = (k : ℤ) := by
        rw [Int.floor_eq_iff]
        constructor
        · push_cast
          linarith
        · push_cast
          linarith
      obtain ⟨m, hmx, hm_lb, hm_ub⟩ := fl_rep hq0
      rw [← he] at hmx
      have hmx' : x = (m : ℚ) * 2 ^ (e - 52) := by rw [hx, hmx]
      have hm0 : 0 < m := by omega
      have hsub : jsSub x ((k : ℤ) : ℚ) = x - (k : ℚ) := by
        rcases Nat.eq_zero_or_pos k with hk0 | hkpos
        · rw [jsSub, hk0]
          push_cast
          rw [sub_zero, hmx', fl_exact (e - 52) hm0 hm_ub]
        · have hq1 : (1 : ℚ) ≤ q := by
            have : (1 : ℚ) ≤ (k : ℚ) := by exact_mod_cast hkpos
            rw [hqk]
            have : (0 : ℚ) ≤ (p : ℚ) / 100 := by positivity
            linarith
          have he0 : 0 ≤ e := by
            by_contra hcon
            push_neg at hcon
            have hle : (2 : ℚ) ^ (e + 1) ≤ (2 : ℚ) ^ (0 : ℤ) :=
              zpow_le_zpow_right₀ (by norm_num) (by omega)
            have h20 : (2 : ℚ) ^ (0 : ℤ) = 1 := by norm_num
            linarith
          set j : ℤ := m - (k : ℤ) * 2 ^ ((52 - e).toNat) with hj
          have hpow52e : ((2 : ℚ) ^ ((52 - e).toNat) : ℚ) = (2 : ℚ) ^ ((52 : ℤ) - e) := by
            rw [← zpow_natCast]
            congr 1
            omega
          have hone : (2 : ℚ) ^ ((52 : ℤ) - e) * 2 ^ (e - 52) = 1 := by
            rw [← zpow_add₀ h2ne, show (52 : ℤ) - e + (e - 52) = 0 by ring]
            norm_num
          have hone' : (2 : ℚ) ^ (e - 52) * 2 ^ ((52 : ℤ) - e) = 1 := by
            rw [← zpow_add₀ h2ne, show e - 52 + ((52 : ℤ) - e) = 0 by ring]
            norm_num
          have hjcast : (j : ℚ) = (m : ℚ) - (k : ℚ) * (2 : ℚ) ^ ((52 : ℤ) - e) := by
            rw [hj]
            push_cast
            rw [hpow52e]
          have hjq : (j : ℚ) * 2 ^ (e - 52) = x - (k : ℚ) := by
            rw [hjcast, sub_mul, mul_assoc, hone, mul_one, ← hmx']
          have hjval : (j : ℚ) = (x - (k : ℚ)) * 2 ^ ((52 : ℤ) - e) := by
            rw [← hjq, mul_assoc, hone', mul_one]
          have hj0 : 0 < j := by
            have hzp : (0 : ℚ) < (2 : ℚ) ^ ((52 : ℤ) - e) := zpow_pos (by norm_num) _
            have : (0 : ℚ) < (j : ℚ) := by
              rw [hjval]
              exact mul_pos (by linarith) hzp
            exact_mod_cast this
          have hjub : j ≤ 9007199254740992 := by
            have h2b : (2 : ℚ) ^ ((52 : ℤ) - e) ≤ (2 : ℚ) ^ (52 : ℤ) :=
              zpow_le_zpow_right₀ (by norm_num) (by omega)
            have hzp : (0 : ℚ) < (2 : ℚ) ^ ((52 : ℤ) - e) := zpow_pos (by norm_num) _
            have hlt : (j : ℚ) < (2 : ℚ) ^ (52 : ℤ) := by
              rw [hjval]
              calc (x - (k : ℚ)) * 2 ^ ((52 : ℤ) - e)
                  < 1 * 2 ^ ((52 : ℤ) - e) :=
                    mul_lt_mul_of_pos_right (by linarith) hzp
                _ = 2 ^ ((52 : ℤ) - e) := one_mul _
                _ ≤ (2 : ℚ) ^ (52 : ℤ) := h2b
            have hlt' : (j : ℚ) < ((4503599627370496 : ℤ) : ℚ) := by
              push_cast
              have h52q : (2 : ℚ) ^ (52 : ℤ) = 4503599627370496 := by norm_num
              linarith
            have : j < (4503599627370496 : ℤ) := by exact_mod_cast hlt'
            omega
          rw [jsSub, show x - ((k : ℤ) : ℚ) = (j : ℚ) * 2 ^ (e - 52) by push_cast; rw [hjq],
            fl_exact (e - 52) hj0 hjub, hjq]
      have hfp_lb : (p : ℚ) / 100 - 1 / 256 ≤ x - (k : ℚ) := by
        have := herr.1
        rw [hqk] at this
        linarith
      have hfp_ub : x - (k : ℚ) ≤ (p : ℚ) / 100 + 1 / 256 := by
        have := herr.2
        rw [hqk] at this
        linarith
      set z : ℚ := (x - (k : ℚ)) * 100 with hz
      have hz_lb : (p : ℚ) - 100 / 256 ≤ z := by
        rw [hz]
        linarith
      have hz_ub : z ≤ (p : ℚ) + 100 / 256 := by
        rw [hz]
        linarith
      have hz0 : 0 < z := by linarith
      have h128 : (2 : ℚ) ^ (7 : ℤ) = 128 := by norm_num
      have hz128 : z < (2 : ℚ) ^ (7 : ℤ) := by
        rw [h128]
        linarith
      have hez : Int.log 2 z ≤ 6 := by
        by_contra hcon
        push_neg at hcon
        have h1 : (2 : ℚ) ^ (7 : ℤ) ≤ (2 : ℚ) ^ (Int.log 2 z) :=
          zpow_le_zpow_right₀ (by norm_num) (by omega)
        linarith [log2_self_le hz0]
      have hzerr : -(1 / 256) ≤ fl z - z ∧ fl z - z ≤ 1 / 256 := by
        rw [← abs_le]
        calc |fl z - z| ≤ (2 : ℚ) ^ (Int.log 2 z - 53) := fl_err hz0
          _ ≤ (2 : ℚ) ^ (-8 : ℤ) := zpow_le_zpow_right₀ (by norm_num) (by omega)
          _ = 1 / 256 := by norm_num
      have hround : round (fl z) = (p : ℤ) := by
        rw [round_eq, Int.floor_eq_iff]
        constructor
        · push_cast
          linarith [hzerr.1]
        · push_cast
          linarith [hzerr.2]
      refine ⟨hfloor, ?_⟩
      rw [hfloor, hsub, jsMul, ← hz]
      exact hround

/-- The string `amountToWords` produces once the decoded rupee and paise
values are known. -/
theorem amountToWords_decode (x : ℚ) (r p : ℕ)
    (hfl : ⌊x⌋ = (r : ℤ))
    (hrd : round (jsMul (jsSub x ((⌊x⌋ : ℤ) : ℚ)) 100) = (p : ℤ)) :
    amountToWords x = specAmountPhrase r p := by
  have hempty : ("" : String).data = [] := rfl
  unfold amountToWords specAmountPhrase
  rw [hrd, hfl, Int.toNat_natCast, Int.toNat_natCast]
  by_cases hp0 : 0 < p
  · rw [if_pos (by exact_mod_cast hp0), if_pos hp0]
    apply string_data_inj
    simp only [data_append, List.append_assoc]
  · rw [if_neg (by exact_mod_cast hp0), if_neg hp0]
    apply string_data_inj
    simp only [data_append, List.append_assoc, hempty, List.nil_append]

theorem jsAdd_assoc (a b c : JsNum) :
    JsNum.add (JsNum.add a b) c = JsNum.add a (JsNum.add b c) := by
  cases a <;> cases b <;> cases c <;> simp [JsNum.add, Int.add_assoc]

theorem calculateTotal_go (items : List InvoiceItem) (a : JsNum) :
    items.foldl (fun sum it => JsNum.add sum (lineAmount it)) a =
      JsNum.add a (sumLineAmounts items) := by
  induction items generalizing a with
  | nil => cases a <;> simp [sumLineAmounts, JsNum.add]
  | cons it rest ih => simp [sumLineAmounts, ih, jsAdd_assoc]

theorem calculateTotal_eq (items : List InvoiceItem) :
    calculateTotal items = sumLineAmounts items := by
  rw [calculateTotal, calculateTotal_go]
  cases sumLineAmounts items <;> simp [JsNum.add]

/-- Concrete service used by witnesses and counterexamples below. -/
def sampleService : Service :=
  { id := "s1", name := "Gas Refill", ratePaise := 50000 }

/-- Concrete item list used by witnesses below. -/
def sampleItems : List InvoiceItem :=
  [{ id := "a", serviceId := "s1", serviceName := "Gas Refill",
     ratePaise := 50000, quantity := JsNum.int 2 }]

/-- C1: in every editor state reachable by any sequence of add-item,
update-quantity and remove-item operations, `calculateTotal` returns
the sum of `ratePaise * quantity` over the current item list, and the
Invoice built at finalize time has `totalPaise` equal to that sum over
its items. -/
theorem claim1_total_invariant (ops : List EditorOp) (st : EditorState)
    (newId : String) (now : Int) (_hreach : st.items = runOps ops) :
    calculateTotal st.items = sumLineAmounts st.items ∧
    (finalizeInvoice st newId now).totalPaise =
      sumLineAmounts (finalizeInvoice st newId now).items :=
  ⟨calculateTotal_eq st.items, calculateTotal_eq st.items⟩

/-- Witness for C1's theorem at a concrete reachable editor state. -/
theorem claim1_witness :
    calculateTotal (runOps [EditorOp.add sampleService "100",
        EditorOp.update "100" "3", EditorOp.add sampleService "101",
        EditorOp.remove "101"]) =
      sumLineAmounts (runOps [EditorOp.add sampleService "100",
        EditorOp.update "100" "3", EditorOp.add sampleService "101",
        EditorOp.remove "101"]) :=
  (claim1_total_invariant
    [EditorOp.add sampleService "100", EditorOp.update "100" "3",
     EditorOp.add sampleService "101", EditorOp.remove "101"]
    { customerName := "Alice", billNo := "INV1", date := "01/01/2026",
      items := runOps [EditorOp.add sampleService "100", EditorOp.update "100" "3",
        EditorOp.add sampleService "101", EditorOp.remove "101"] }
    "900" 17 rfl).1

/-- C4: finalizing fails with MissingCustomerName exactly when the
trimmed customer name is empty, fails with NoLineItems exactly when the
name is present but the item list is empty (name checked first), the
store is untouched on every failure, and on success the store gains
exactly the finalized invoice, whose items are the editor's items in
insertion order. -/
theorem claim4_validation (st : EditorState) (store : List Invoice)
    (newId : String) (now : Int) :
    ((handlePreview st store newId now).2 = some SaveError.MissingCustomerName ↔
      trimString st.customerName = "") ∧
    ((handlePreview st store newId now).2 = some SaveError.NoLineItems ↔
      trimString st.customerName ≠ "" ∧ st.items = []) ∧
    ((handlePreview st store newId now).2 ≠ none →
      (handlePreview st store newId now).1 = store) ∧
    ((handlePreview st store newId now).2 = none →
      (handlePreview st store newId now).1 = store ++ [finalizeInvoice st newId now] ∧
      (finalizeInvoice st newId now).items = st.items) := by
  by_cases h1 : trimString st.customerName = "" <;> by_cases h2 : st.items = [] <;>
    simp [handlePreview, h1, h2, List.length_eq_zero, finalizeInvoice]

/-- Editor state with a valid customer name, used by C4's witness. -/
def validState : EditorState :=
  { customerName := "Alice", billNo := "B", date := "D", items := sampleItems }

/-- Editor state whose customer name trims to empty, used by C4's
witness. -/
def blankNameState : EditorState :=
  { customerName := "   ", billNo := "B", date := "D", items := sampleItems }

/-- Witness for C4's theorem: a valid state persists exactly the
finalized invoice, and an empty name is rejected with the store
untouched. -/
theorem claim4_witness :
    (handlePreview validState [] "42" 7).1 = [finalizeInvoice validState "42" 7] ∧
    (handlePreview blankNameState [] "42" 7).1 = [] := by
  constructor
  · exact ((claim4_validation validState [] "42" 7).2.2.2 (by decide)).1
  · exact (claim4_validation blankNameState [] "42" 7).2.2.1 (by decide)

/-- C6 counterexample: the generated item id is the clock value
`String(Date.now())`; when two adds observe the same millisecond the
second new item's id equals the id already in the list, so the id is
not distinct from every existing id as the claim states. -/
theorem claim6_counterexample :
    ((addService (addService [] sampleService "100") sampleService "100").map
        InvoiceItem.id) = ["100", "100"] ∧
    "100" ∈ (addService [] sampleService "100").map InvoiceItem.id := by
  decide

/-- C6 (amended): adding a service appends one new item with quantity 1,
a snapshot of the service's current name and rate, and the supplied
generated id; that id is distinct from every id already in the list
whenever the supplied clock value is fresh, which the code does not
itself guarantee for adds within the same millisecond. -/
theorem claim6_add_item (items : List InvoiceItem) (service : Service) (newId : String)
    (hfresh : newId ∉ items.map InvoiceItem.id) :
    addService items service newId =
      items ++ [{ id := newId, serviceId := service.id, serviceName := service.name,
                  ratePaise := service.ratePaise, quantity := JsNum.int 1 }] ∧
    ∀ it ∈ items, it.id ≠ newId := by
  refine ⟨rfl, ?_⟩
  intro it hit heq
  exact hfresh (heq ▸ List.mem_map_of_mem InvoiceItem.id hit)

/-- Witness for C6's theorem: adding to a one-item list with a fresh
clock value. -/
theorem claim6_witness :
    addService (addService [] sampleService "100") sampleService "101" =
      addService [] sampleService "100" ++
        [{ id := "101", serviceId := "s1", serviceName := "Gas Refill",
           ratePaise := 50000, quantity := JsNum.int 1 }] ∧
    ∀ it ∈ addService [] sampleService "100", it.id ≠ "101" :=
  claim6_add_item (addService [] sampleService "100") sampleService "101" (by decide)

/-- C7: when the parsed quantity is negative, updateQuantity returns
the item list unchanged; otherwise it rewrites exactly the quantity of
the items bearing the given id and leaves every other item, every other
field, the list order and the list length unchanged (stated pointwise
through the optional indexing of the result). -/
theorem claim7_update_frame (items : List InvoiceItem) (id : String) (qty : String) :
    ((parseQty qty).ltZero = true → updateQuantity items id qty = items) ∧
    ((parseQty qty).ltZero = false → ∀ i : Nat,
      (updateQuantity items id qty)[i]? =
        (items[i]?).map (fun it =>
          if it.id = id then { it with quantity := parseQty qty } else it)) := by
  constructor
  · intro h
    simp [updateQuantity, h]
  · intro h i
    simp [updateQuantity, h, List.getElem?_map]

/-- Witness for C7's theorem: a negative quantity string is a no-op and
a plain numeral rewrites the targeted item's quantity. -/
theorem claim7_witness :
    updateQuantity sampleItems "a" "-3" = sampleItems ∧
    (updateQuantity sampleItems "a" "4")[0]? =
      some { id := "a", serviceId := "s1", serviceName := "Gas Refill",
             ratePaise := 50000, quantity := JsNum.int 4 } := by
  constructor
  · exact (claim7_update_frame sampleItems "a" "-3").1 (by decide)
  · have h := (claim7_update_frame sampleItems "a" "4").2 (by decide) 0
    simpa [sampleItems, parseQty, parseIntJS, parseIntNoSign, digitsToNat] using h

/-- C8: deleting by id writes back the collection with every invoice of
that id removed, all other invoices kept in their original order, and
deleting an id that no stored invoice has writes back the collection
unchanged (the operation is total, so no error is raised). -/
theorem claim8_delete (invoices : List Invoice) (id : String) :
    (∀ inv ∈ deleteInvoice invoices id, inv.id ≠ id) ∧
    List.Sublist (deleteInvoice invoices id) invoices ∧
    (∀ inv ∈ invoices, inv.id ≠ id → inv ∈ deleteInvoice invoices id) ∧
    ((∀ inv ∈ invoices, inv.id ≠ id) → deleteInvoice invoices id = invoices) := by
  refine ⟨?_, List.filter_sublist _, ?_, ?_⟩
  · intro inv h
    rw [deleteInvoice, List.mem_filter] at h
    exact of_decide_eq_true h.2
  · intro inv h hne
    rw [deleteInvoice, List.mem_filter]
    exact ⟨h, decide_eq_true hne⟩
  · intro h
    rw [deleteInvoice]
    apply List.filter_eq_self.mpr
    intro a ha
    exact decide_eq_true (h a ha)

/-- Concrete invoices used by C8's witness. -/
def sampleInvoices : List Invoice :=
  [{ id := "i1", billNo := "B1", date := "D1", customerName := "A",
     items := [], totalPaise := JsNum.int 100, createdAt := 1 },
   { id := "i2", billNo := "B2", date := "D2", customerName := "B",
     items := [], totalPaise := JsNum.int 200, createdAt := 2 }]

/-- Witness for C8's theorem: the surviving invoice stays in the
collection, and deleting an absent id leaves the collection equal to
the original. -/
theorem claim8_witness :
    ({ id := "i2", billNo := "B2", date := "D2", customerName := "B",
       items := [], totalPaise := JsNum.int 200, createdAt := 2 } : Invoice) ∈
        deleteInvoice sampleInvoices "i1" ∧
    deleteInvoice sampleInvoices "zz" = sampleInvoices := by
  constructor
  · exact (claim8_delete sampleInvoices "i1").2.2.1 _ (by decide) (by decide)
  · exact (claim8_delete sampleInvoices "zz").2.2.2 (by decide)

/-- Expansion of one character under `phone.replace(/\n/g, "<br>")`:
a newline becomes the four characters of `<br>`, anything else is
kept. -/
def brExpandChar (c : Char) : List Char :=
  if c = '\n' then "<br>".data else [c]

/-- `business.phone.replace(/\n/g, "<br>")` from Preview.tsx line 418. -/
def replaceNewlinesWithBr (s : String) : String :=
  String.mk (s.data.map brExpandChar).flatten

/-- The string substituted for the `{{PHONE}}` placeholder by the
template renderer variant (Preview.tsx lines 409-454, line 418). -/
def phoneFieldTemplateVariant (b : BusinessDetails) : String :=
  replaceNewlinesWithBr b.phone

/-- The phone line emitted by the second renderer variant (Preview.tsx
lines 840-1014, line 968): the phone value is interpolated verbatim
into the document. -/
def phoneLineSecondVariant (b : BusinessDetails) : String :=
  "Phone: " ++ b.phone

/-- Pattern-at-the-front test on character lists. -/
def beginsWith : List Char → List Char → Bool
  | [], _ => true
  | _ :: _, [] => false
  | p :: ps, c :: cs => p = c && beginsWith ps cs

/-- Substring occurrence test on character lists. -/
def hasSubstr (pat : List Char) : List Char → Bool
  | [] => pat.isEmpty
  | c :: cs => beginsWith pat (c :: cs) || hasSubstr pat cs

theorem beginsWith_append (pat rest : List Char) : beginsWith pat (pat ++ rest) = true := by
  induction pat with
  | nil => rfl
  | cons p ps ih => simp [beginsWith, ih]

theorem hasSubstr_append_left (pat pre l : List Char) (h : hasSubstr pat l = true) :
    hasSubstr pat (pre ++ l) = true := by
  induction pre with
  | nil => simpa using h
  | cons c cs ih => simp [hasSubstr, ih]

theorem hasSubstr_self_append (pat rest : List Char) (hne : pat ≠ []) :
    hasSubstr pat (pat ++ rest) = true := by
  cases pat with
  | nil => exact absurd rfl hne
  | cons p ps =>
    simp only [List.cons_append, hasSubstr, Bool.or_eq_true]
    left
    simpa using beginsWith_append (p :: ps) rest

theorem no_newline_in_expansion (l : List Char) :
    '\n' ∉ (l.map brExpandChar).flatten := by
  induction l with
  | nil => simp
  | cons c cs ih =>
    simp only [List.map_cons, List.flatten_cons, List.mem_append]
    intro hmem
    rcases hmem with hm | hm
    · by_cases hc : c = '\n'
      · rw [brExpandChar, if_pos hc] at hm
        exact absurd hm (by decide)
      · rw [brExpandChar, if_neg hc] at hm
        exact hc (List.mem_singleton.mp hm).symm
    · exact ih hm

theorem br_present (l : List Char) (h : '\n' ∈ l) :
    hasSubstr "<br>".data (l.map brExpandChar).flatten = true := by
  induction l with
  | nil => cases h
  | cons c cs ih =>
    simp only [List.map_cons, List.flatten_cons]
    by_cases hc : c = '\n'
    · rw [brExpandChar, if_pos hc]
      exact hasSubstr_self_append _ _ (by decide)
    · rw [brExpandChar, if_neg hc]
      have hcs : '\n' ∈ cs := by
        rcases List.mem_cons.mp h with h1 | h2
        · exact absurd h1.symm hc
        · exact h2
      exact hasSubstr_append_left _ [c] _ (ih hcs)

/-- Business profile with a line break inside the phone field, used by
C9's counterexample and witness. -/
def bizWithBreak : BusinessDetails :=
  { businessName := "Ujjawal Refrigeration", address := "Indore",
    phone := "Mob.9893222107\nMob(W).9039378360",
    email := "ujjawal.refrigeration@gmail.com" }

/-- C9 counterexample: the second renderer variant interpolates the
phone field verbatim, so for a phone with an embedded line break the
emitted document text still contains the raw newline and contains no
`<br>` — the claim's conversion does not happen in this renderer
variant. -/
theorem claim9_counterexample :
    '\n' ∈ (phoneLineSecondVariant bizWithBreak).data ∧
    hasSubstr "<br>".data (phoneLineSecondVariant bizWithBreak).data = false ∧
    '\n' ∈ bizWithBreak.phone.data := by
  decide

/-- C9 (amended): the template renderer variant converts every line
break in the phone field into the document's `<br>` representation —
its output contains no newline and, whenever the phone had a line
break, contains `<br>` — while the second renderer variant interpolates
the phone field verbatim, leaving the raw newline in the document. -/
theorem claim9_phone_linebreaks (b : BusinessDetails) (h : '\n' ∈ b.phone.data) :
    '\n' ∉ (phoneFieldTemplateVariant b).data ∧
    hasSubstr "<br>".data (phoneFieldTemplateVariant b).data = true ∧
    phoneLineSecondVariant b = "Phone: " ++ b.phone :=
  ⟨no_newline_in_expansion b.phone.data, br_present b.phone.data h, rfl⟩

/-- Witness for C9's theorem at the concrete profile with a line break
in the phone field. -/
theorem claim9_witness :
    '\n' ∉ (phoneFieldTemplateVariant bizWithBreak).data ∧
    hasSubstr "<br>".data (phoneFieldTemplateVariant bizWithBreak).data = true :=
  ⟨(claim9_phone_linebreaks bizWithBreak (by decide)).1,
   (claim9_phone_linebreaks bizWithBreak (by decide)).2.1⟩

/-- C10: the only quantity strings treated as a no-op are those parsing
to a strictly negative integer; the empty string is parsed as 0 and
stores quantity 0, and a string with no parsable digits parses to NaN,
passes the negativity guard, and NaN is stored as the item's quantity —
updateQuantity does not enforce that a stored quantity is a
non-negative integer. -/
theorem claim10_parse_gaps :
    parseQty "" = JsNum.int 0 ∧
    parseQty "abc" = JsNum.nan ∧
    (∀ qty : String, (parseQty qty).ltZero = true ↔
      ∃ v : Int, parseQty qty = JsNum.int v ∧ v < 0) ∧
    (∀ items : List InvoiceItem, ∀ id : String,
      updateQuantity items id "" =
        items.map (fun it => if it.id = id then { it with quantity := JsNum.int 0 } else it)) ∧
    (∀ items : List InvoiceItem, ∀ id qty : String, parseQty qty = JsNum.nan →
      updateQuantity items id qty =
        items.map (fun it => if it.id = id then { it with quantity := JsNum.nan } else it)) := by
  have h0 : parseQty "" = JsNum.int 0 := by decide
  refine ⟨h0, by decide, ?_, ?_, ?_⟩
  · intro qty
    cases h : parseQty qty with
    | nan => simp [JsNum.ltZero]
    | int v =>
      simp only [JsNum.ltZero, decide_eq_true_eq, JsNum.int.injEq]
      constructor
      · intro hv
        exact ⟨v, rfl, hv⟩
      · rintro ⟨w, rfl, hw⟩
        exact hw
  · intro items id
    simp [updateQuantity, h0, JsNum.ltZero]
  · intro items id qty h
    simp [updateQuantity, h, JsNum.ltZero]

/-- Witness for C10's theorem: on the sample item list the empty string
stores quantity 0 and the string "zz" stores NaN. -/
theorem claim10_witness :
    updateQuantity sampleItems "a" "" =
      [{ id := "a", serviceId := "s1", serviceName := "Gas Refill",
         ratePaise := 50000, quantity := JsNum.int 0 }] ∧
    updateQuantity sampleItems "a" "zz" =
      [{ id := "a", serviceId := "s1", serviceName := "Gas Refill",
         ratePaise := 50000, quantity := JsNum.nan }] := by
  constructor
  · have h := claim10_parse_gaps.2.2.2.1 sampleItems "a"
    simpa [sampleItems] using h
  · have h := claim10_parse_gaps.2.2.2.2 sampleItems "a" "zz" (by decide)
    simpa [sampleItems] using h

/-- C3 counterexample: the pair (rupees, paise) = (2^47, 1) reaches the
converter as the binary64 value nearest to 2^47 + 1/100, which is
exactly 2^47 (the 1/100 is below half an ulp); the emitted phrase is
the zero-paise phrase and contains no " Paise" segment although the
supplied paise remainder 1 is positive. -/
theorem claim3_counterexample :
    fl ((2 : ℚ) ^ (47 : ℕ) + 1 / 100) = (2 : ℚ) ^ (47 : ℕ) ∧
    amountToWords (fl ((2 : ℚ) ^ (47 : ℕ) + 1 / 100)) = specAmountPhrase 140737488355328 0 ∧
    hasSubstr " Paise".data (specAmountPhrase 140737488355328 0).data = false ∧
    (0 : ℕ) < 1 := by
  have hq0 : (0 : ℚ) < (2 : ℚ) ^ (47 : ℕ) + 1 / 100 := by norm_num
  have hfl47 : fl ((2 : ℚ) ^ (47 : ℕ) + 1 / 100) = (2 : ℚ) ^ (47 : ℕ) := by
    have h := fl_eval_lo (e := 47) (n := 4503599627370496) hq0
      (by norm_num) (by norm_num) (by norm_num) (by norm_num)
    rw [h]
    norm_num
  have hxint : ((2 : ℚ) ^ (47 : ℕ)) = ((140737488355328 : ℤ) : ℚ) := by norm_num
  have hfloorx : ⌊(2 : ℚ) ^ (47 : ℕ)⌋ = (140737488355328 : ℤ) := by
    rw [hxint, Int.floor_intCast]
  have hrd : round (jsMul (jsSub ((2 : ℚ) ^ (47 : ℕ))
      ((⌊(2 : ℚ) ^ (47 : ℕ)⌋ : ℤ) : ℚ)) 100) = ((0 : ℕ) : ℤ) := by
    rw [hfloorx, hxint, jsSub, sub_self, fl_zero, jsMul, zero_mul, fl_zero, round_zero]
    norm_num
  have hph : amountToWords ((2 : ℚ) ^ (47 : ℕ)) = specAmountPhrase 140737488355328 0 := by
    apply amountToWords_decode
    · rw [hfloorx]
      norm_num
    · exact hrd
  refine ⟨hfl47, ?_, by decide, by norm_num⟩
  rw [hfl47, hph]

/-- C3 (amended): for every rupee amount below 2^46 and paise remainder
between 0 and 99, applying the converter to the binary64 value nearest
to rupees + paise/100 yields the rupee words followed by " Rupees",
an " and <paise words> Paise" segment exactly when the remainder is
positive, and a terminating " Only"; at rupee amount 0 the rupee word
is "Zero".  (Beyond that range the binary64 decode inside the converter
misreads the supplied paise remainder; see the counterexample.) -/
theorem claim3_phrase_shape :
    (∀ r p : ℕ, p ≤ 99 → r < 2 ^ 46 →
      amountToWords (fl ((r : ℚ) + (p : ℚ) / 100)) = specAmountPhrase r p) ∧
    numberToWords 0 = "Zero" := by
  constructor
  · intro r p hp hr
    have h46 : (2 : ℕ) ^ 46 = 70368744177664 := by norm_num
    have ht : 100 * r + p < 100 * 2 ^ 46 := by omega
    obtain ⟨hf, hrd⟩ := decode_div100 (100 * r + p) ht
    have harg : (((100 * r + p : ℕ)) : ℚ) / 100 = (r : ℚ) + (p : ℚ) / 100 := by
      push_cast
      ring
    rw [jsDiv, harg] at hf hrd
    have hdiv : (100 * r + p) / 100 = r := by omega
    have hmod : (100 * r + p) % 100 = p := by omega
    rw [hdiv] at hf
    rw [hmod] at hrd
    exact amountToWords_decode _ r p hf hrd
  · decide

/-- Witness for C3's theorem at 370 rupees and 35 paise. -/
theorem claim3_witness :
    amountToWords (fl ((370 : ℚ) + (35 : ℚ) / 100)) = specAmountPhrase 370 35 :=
  claim3_phrase_shape.1 370 35 (by norm_num) (by norm_num)

/-- C5 counterexample: totalPaise = 7036874417766401 = 100 * 2^46 + 1
is inside the claimed 53-bit safe-integer range, but the binary64
division by 100 rounds up to 2^46 + 1/64, the scaled fraction is
exactly 1.5625, and Math.round reads the paise remainder as 2 instead
of totalPaise % 100 = 1 — the rendered phrase says "Two Paise" where
the claim demands "One Paise". -/
theorem claim5_counterexample :
    (7036874417766401 : ℕ) < 2 ^ 53 ∧
    (7036874417766401 : ℕ) % 100 = 1 ∧
    jsDiv ((7036874417766401 : ℤ) : ℚ) 100 = 4503599627370497 / 64 ∧
    round (jsMul (jsSub (jsDiv ((7036874417766401 : ℤ) : ℚ) 100)
        ((⌊jsDiv ((7036874417766401 : ℤ) : ℚ) 100⌋ : ℤ) : ℚ)) 100) = 2 ∧
    documentAmountWords 7036874417766401 ≠
      specAmountPhrase (7036874417766401 / 100) (7036874417766401 % 100) := by
  have hcast : ((7036874417766401 : ℤ) : ℚ) = (7036874417766401 : ℚ) := by norm_num
  have hq0 : (0 : ℚ) < (7036874417766401 : ℚ) / 100 := by norm_num
  have hdivv : jsDiv (7036874417766401 : ℚ) 100 = (4503599627370497 : ℚ) / 64 := by
    rw [jsDiv]
    have h := fl_eval_hi (e := 46) (n := 4503599627370496) hq0
      (by norm_num) (by norm_num) (by norm_num) (by norm_num)
    rw [h]
    norm_num
  have hfloorv : ⌊(4503599627370497 : ℚ) / 64⌋ = (70368744177664 : ℤ) := by
    rw [Int.floor_eq_iff]
    constructor
    · norm_num
    · norm_num
  have hsubv : jsSub ((4503599627370497 : ℚ) / 64) ((70368744177664 : ℤ) : ℚ) = 1 / 64 := by
    rw [jsSub,
      show (4503599627370497 : ℚ) / 64 - ((70368744177664 : ℤ) : ℚ) = ((1 : ℤ) : ℚ) * 2 ^ (-6 : ℤ)
        by push_cast; norm_num,
      fl_exact (-6) (by norm_num) (by norm_num)]
    push_cast
    norm_num
  have hmulv : jsMul ((1 : ℚ) / 64) 100 = 25 / 16 := by
    rw [jsMul,
      show (1 : ℚ) / 64 * 100 = ((25 : ℤ) : ℚ) * 2 ^ (-4 : ℤ) by push_cast; norm_num,
      fl_exact (-4) (by norm_num) (by norm_num)]
    push_cast
    norm_num
  have hroundv : round ((25 : ℚ) / 16) = 2 := by
    rw [round_eq]
    apply Int.floor_eq_iff.mpr
    constructor
    · norm_num
    · norm_num
  have hdecode : round (jsMul (jsSub (jsDiv ((7036874417766401 : ℤ) : ℚ) 100)
      ((⌊jsDiv ((7036874417766401 : ℤ) : ℚ) 100⌋ : ℤ) : ℚ)) 100) = 2 := by
    rw [hcast, hdivv, hfloorv, hsubv, hmulv]
    exact hroundv
  refine ⟨by norm_num, by norm_num, by rw [hcast, hdivv], hdecode, ?_⟩
  have hph : documentAmountWords 7036874417766401 = specAmountPhrase 70368744177664 2 := by
    rw [documentAmountWords, hcast, hdivv]
    apply amountToWords_decode
    · rw [hfloorv]
      norm_num
    · rw [hfloorv, hsubv, hmulv, hroundv]
      norm_num
  rw [hph, show (7036874417766401 : ℕ) / 100 = 70368744177664 by norm_num,
    show (7036874417766401 : ℕ) % 100 = 1 by norm_num]
  decide

/-- C5 (amended): for every stored invoice whose `totalPaise` is a
non-negative integer below 100 * 2^46 (the bound the counterexample at
100 * 2^46 + 1 forces), the amount-in-words phrase placed in the
rendered document is the words conversion applied to major units
`totalPaise / 100` and minor-unit remainder `totalPaise % 100`. -/
theorem claim5_document_words (inv : Invoice) (t : ℤ)
    (htotal : inv.totalPaise = JsNum.int t) (h0 : 0 ≤ t) (hb : t < 100 * 2 ^ 46) :
    documentAmountWords t = specAmountPhrase (t.toNat / 100) (t.toNat % 100) := by
  obtain ⟨n, rfl⟩ : ∃ n : Nat, t = (n : ℤ) := ⟨t.toNat, (Int.toNat_of_nonneg h0).symm⟩
  have hbn : n < 100 * 2 ^ 46 := by exact_mod_cast hb
  obtain ⟨hf, hrd⟩ := decode_div100 n hbn
  rw [documentAmountWords, Int.toNat_natCast,
    show (((n : ℤ)) : ℚ) = (n : ℚ) by push_cast; ring]
  exact amountToWords_decode _ _ _ hf hrd

/-- Witness for C5's theorem at a concrete stored invoice with
totalPaise 37035 (370 rupees and 35 paise). -/
theorem claim5_witness :
    documentAmountWords 37035 = specAmountPhrase 370 35 := by
  have h := claim5_document_words
    { id := "1", billNo := "INV1", date := "01/01/2026", customerName := "A",
      items := [], totalPaise := JsNum.int 37035, createdAt := 0 } 37035 rfl
    (by norm_num) (by norm_num)
  rw [show ((37035 : ℤ)).toNat = 37035 from rfl] at h
  rw [show (37035 : ℕ) / 100 = 370 from rfl, show (37035 : ℕ) % 100 = 35 from rfl] at h
  exact h

end InvoiceApp
